import Mathlib

/-!
A shallow embedding of `src/filter_ips.py` (repository `bgp-cn-ip`).

Raw feed lines are modelled as lists of bytes (`List Nat`), decoded text as
`List Char`.  The Python string helpers the script uses (`str.strip()`,
`str.split()`, `int(...)`, `str.replace`, `bytes.decode('utf-8')`) are
embedded over the ASCII fragment of Unicode whitespace / digits, which is
the fragment the line-oriented feed format uses.
-/

/-- ASCII whitespace, as recognised by the embeddings of `str.strip()` and
`str.split()`. -/
def isPySpace (c : Char) : Bool :=
  c = ' ' || c = '\t' || c = '\n' || c = '\r' || c = '\x0b' || c = '\x0c'

/-- Embedding of `str.strip()` with no arguments: drop whitespace at both
ends of the line. -/
def pyStrip (l : List Char) : List Char :=
  ((l.dropWhile isPySpace).reverse.dropWhile isPySpace).reverse

/-- Worker for `pySplit`; `acc` holds the current token, reversed. -/
def pySplitAux : List Char → List Char → List (List Char)
  | [], acc => if acc.isEmpty then [] else [acc.reverse]
  | c :: rest, acc =>
    if isPySpace c then
      if acc.isEmpty then pySplitAux rest [] else acc.reverse :: pySplitAux rest []
    else pySplitAux rest (c :: acc)

/-- Embedding of `str.split()` with no arguments: split on runs of
whitespace, discarding empty fields. -/
def pySplit (l : List Char) : List (List Char) := pySplitAux l []

/-- Tail parser for the digits of a Python integer literal, allowing single
underscores between digits, accumulating the value. -/
def pyDigits : List Char → Nat → Option Nat
  | [], acc => some acc
  | c :: rest, acc =>
    if c.isDigit then pyDigits rest (acc * 10 + (c.toNat - 48))
    else if c = '_' then
      match rest with
      | d :: _ => if d.isDigit then pyDigits rest acc else none
      | [] => none
    else none

/-- Unsigned part of a Python integer literal: at least one digit, digits
possibly separated by single underscores. -/
def pyUnsigned : List Char → Option Nat
  | [] => none
  | c :: rest => if c.isDigit then pyDigits rest (c.toNat - 48) else none

/-- Embedding of `int(token)` on an ASCII token with no surrounding
whitespace: optional sign followed by an underscore-separated digit run. -/
def pyToInt (tok : List Char) : Option Int :=
  match tok with
  | '+' :: rest => (pyUnsigned rest).map (fun n => (n : Int))
  | '-' :: rest => (pyUnsigned rest).map (fun n => -(n : Int))
  | _ => (pyUnsigned tok).map (fun n => (n : Int))

/-- Is `b` a UTF-8 continuation byte? -/
def isCont (b : Nat) : Bool := 0x80 ≤ b && b < 0xC0

/-- Strict UTF-8 decoder, embedding `bytes.decode('utf-8')`: rejects stray
continuation bytes, overlong forms, surrogates, code points above
`0x10FFFF` and truncated sequences; `none` models `UnicodeDecodeError`. -/
def utf8Decode : List Nat → Option (List Char)
  | [] => some []
  | b :: rest =>
    if b < 0x80 then (utf8Decode rest).map (fun l => Char.ofNat b :: l)
    else if b < 0xC2 then none
    else if b < 0xE0 then
      match rest with
      | b1 :: rest2 =>
        if isCont b1 then
          (utf8Decode rest2).map (fun l => Char.ofNat ((b - 0xC0) * 0x40 + (b1 - 0x80)) :: l)
        else none
      | [] => none
    else if b < 0xF0 then
      match rest with
      | b1 :: b2 :: rest3 =>
        if isCont b1 && isCont b2 then
          let cp := (b - 0xE0) * 0x1000 + (b1 - 0x80) * 0x40 + (b2 - 0x80)
          if cp < 0x800 || (0xD800 ≤ cp && cp ≤ 0xDFFF) then none
          else (utf8Decode rest3).map (fun l => Char.ofNat cp :: l)
        else none
      | _ => none
    else if b < 0xF5 then
      match rest with
      | b1 :: b2 :: b3 :: rest4 =>
        if isCont b1 && isCont b2 && isCont b3 then
          let cp := (b - 0xF0) * 0x40000 + (b1 - 0x80) * 0x1000 +
            (b2 - 0x80) * 0x40 + (b3 - 0x80)
          if cp < 0x10000 || 0x10FFFF < cp then none
          else (utf8Decode rest4).map (fun l => Char.ofNat cp :: l)
        else none
      | _ => none
    else none

/-- UTF-8 encoding of one character (used only to build concrete feeds). -/
def utf8EncodeChar (c : Char) : List Nat :=
  let n := c.toNat
  if n < 0x80 then [n]
  else if n < 0x800 then [0xC0 + n / 0x40, 0x80 + n % 0x40]
  else if n < 0x10000 then
    [0xE0 + n / 0x1000, 0x80 + (n / 0x40) % 0x40, 0x80 + n % 0x40]
  else
    [0xF0 + n / 0x40000, 0x80 + (n / 0x1000) % 0x40, 0x80 + (n / 0x40) % 0x40, 0x80 + n % 0x40]

/-- UTF-8 bytes of a Lean string; used to build concrete feed lines. -/
def enc (s : String) : List Nat := s.data.foldr (fun c a => utf8EncodeChar c ++ a) []

/-- Embedding of `is_ipv4_cidr` (src/filter_ips.py, lines 19-21): the CIDR
string contains a period and no colon. -/
def is_ipv4_cidr (cidr : List Char) : Bool :=
  cidr.contains '.' && !(cidr.contains ':')

/-- Outcome of classifying one raw feed line, following lines 40-67 of
`fetch_and_filter`. -/
inductive LineOut where
  | emptyRaw : LineOut
  | badDecode : LineOut
  | silent : LineOut
  | badLine : List Char → LineOut
  | record : List Char → Int → LineOut

/-- Classification of a decoded, stripped line (lines 46-67): blank and `#`
lines are skipped silently, a line with fewer than two tokens or a
non-integer second token is malformed, and otherwise the first token is the
CIDR and the second the ASN. -/
def classifyLine (line : List Char) : LineOut :=
  if line = [] then .silent
  else if line.head? = some '#' then .silent
  else
    match pySplit line with
    | c :: a :: _ =>
      match pyToInt a with
      | none => .badLine line
      | some n => .record c n
    | _ => .badLine line

/-- Per-line processing of one raw feed line (lines 40-67): empty byte
lines are ignored entirely, a UTF-8 decoding failure is caught by the outer
per-line handler, and otherwise the decoded line is stripped and
classified. -/
def parseLine (raw : List Nat) : LineOut :=
  if raw = [] then .emptyRaw
  else
    match utf8Decode raw with
    | none => .badDecode
    | some decoded => classifyLine (pyStrip decoded)

/-- State of the streaming loop of `fetch_and_filter`: the number of
non-empty lines processed, the accumulated unique CIDRs (insertion order;
models the Python set together with its cardinality), the bounded warnings
of lines 56-58 and 65-67 (recording the processed-line count and match
count at emission), and the unbounded warnings of line 75. -/
structure LoopState where
  processed : Nat
  cidrs : List (List Char)
  warns : List (Nat × Nat × List Char)
  outerWarns : List (List Nat)

/-- Set insertion keyed on the CIDR string (`filtered_cidrs.add(cidr)`). -/
def addCidr (s : List (List Char)) (c : List Char) : List (List Char) :=
  if c ∈ s then s else s ++ [c]

/-- One iteration of the streaming loop (lines 39-75 of
`fetch_and_filter`) for target ASN set `t`. -/
def stepLine (t : List Int) (st : LoopState) (raw : List Nat) : LoopState :=
  match parseLine raw with
  | .emptyRaw => st
  | .badDecode =>
      { st with processed := st.processed + 1, outerWarns := st.outerWarns ++ [raw] }
  | .silent => { st with processed := st.processed + 1 }
  | .badLine line =>
      if st.processed + 1 < 100 ∧ st.cidrs.length < 10 then
        { st with processed := st.processed + 1,
                  warns := st.warns ++ [(st.processed + 1, st.cidrs.length, line)] }
      else { st with processed := st.processed + 1 }
  | .record c n =>
      { st with processed := st.processed + 1,
                cidrs := if n ∈ t ∧ is_ipv4_cidr c then addCidr st.cidrs c else st.cidrs }

/-- Initial loop state. -/
def initState : LoopState := ⟨0, [], [], []⟩

/-- The whole streaming loop over a successfully fetched feed. -/
def runFeed (t : List Int) (feed : List (List Nat)) : LoopState :=
  feed.foldl (stepLine t) initState

/-- Embedding of `fetch_and_filter` (lines 23-90) on a successfully fetched
feed: run the loop and return the sorted list of unique matching CIDRs
(`sorted(list(filtered_cidrs))`; Python string sort is lexicographic by
code point, the order of `List Char` here). -/
def fetch_and_filter (t : List Int) (feed : List (List Nat)) : List (List Char) :=
  List.insertionSort (· ≤ ·) (runFeed t feed).cidrs

/-- The bounded malformed-line warnings emitted by a run of the loop. -/
def innerWarnings (t : List Int) (feed : List (List Nat)) : List (Nat × Nat × List Char) :=
  (runFeed t feed).warns

/-- The unbounded per-line exception warnings emitted by a run of the loop
(line 75). -/
def outerWarnings (t : List Int) (feed : List (List Nat)) : List (List Nat) :=
  (runFeed t feed).outerWarns

/-- Fuel-driven decimal printer worker; fuel `n + 1` always suffices. -/
def natStrGo : Nat → Nat → List Char → List Char
  | 0, _, acc => acc
  | fuel + 1, n, acc =>
    if n < 10 then Char.ofNat (48 + n % 10) :: acc
    else natStrGo fuel (n / 10) (Char.ofNat (48 + n % 10) :: acc)

/-- Embedding of Python `str` on a natural number. -/
def natStr (n : Nat) : List Char := natStrGo (n + 1) n []

/-- Embedding of Python `str` on an integer. -/
def intStr (i : Int) : List Char :=
  if i < 0 then '-' :: natStr i.natAbs else natStr i.natAbs

/-- Embedding of `', '.join` over already-stringified items (line 97). -/
def commaJoin : List (List Char) → List Char
  | [] => []
  | [x] => x
  | x :: xs => x ++ ',' :: ' ' :: commaJoin xs

/-- Embedding of `sorted(list(target_asns))` (line 97): the target set's
ASNs in ascending numeric order. -/
def sortedAsns (t : List Int) : List Int := List.insertionSort (· ≤ ·) t.dedup

/-- Embedding of `.replace('+00:00', 'Z')` (line 100), specialised to its
literal arguments: replace every non-overlapping occurrence, left to
right. -/
def replTs : List Char → List Char
  | '+' :: '0' :: '0' :: ':' :: '0' :: '0' :: rest => 'Z' :: replTs rest
  | c :: rest => c :: replTs rest
  | [] => []

/-- One newline-terminated line per CIDR (lines 103-104). -/
def joinLines : List (List Char) → List Char
  | [] => []
  | c :: rest => c ++ '\n' :: joinLines rest

/-- The source URL constant (line 9). -/
def BGP_TABLE_URL : List Char := ("https://bgp.tools/table.txt").data

/-- Embedding of `write_output` (lines 92-108): the full text written to the
artifact, given the CIDR list, the target ASN set and the value of
`datetime.now(timezone.utc).isoformat()` (`tsIso`). -/
def write_output (cidrs : List (List Char)) (t : List Int) (tsIso : List Char) : List Char :=
  (("# IPv4 CIDRs for ASNs ").data ++ commaJoin ((sortedAsns t).map intStr)) ++ '\n' ::
  ((("# Data sourced from bgp.tools (").data ++ BGP_TABLE_URL ++ (")").data) ++ '\n' ::
  ((("# Last updated: ").data ++ replTs tsIso) ++ '\n' ::
  (("# WARNING: ASN Geo-location is not always precise. This list is based on ASN registration only.").data ++ '\n' ::
  (("#-----------------------------------------------------------").data ++ '\n' ::
  joinLines cidrs))))

/-- The two artifact files of the run (lines 10-11), as optional contents
(`none` = the file does not exist). -/
structure FS where
  primary : Option (List Char)
  secondary : Option (List Char)

/-- The primary target ASN set (line 7). -/
def TARGET_ASNS_PRIMARY : List Int := [4134, 56040]

/-- The secondary target ASN set (line 8). -/
def TARGET_ASNS_SECONDARY : List Int :=
  [4134, 9808, 4837, 4812, 24400, 17621, 4808, 56046, 56048, 56040, 17816, 17622, 56041,
   24444, 56044, 24445, 56047, 24547, 38019]

/-- Embedding of the `__main__` driver (lines 110-129).  Each fetch is an
`Option`: `none` models a transport failure inside that call of
`fetch_and_filter`, which invokes `sys.exit(1)` (line 87), terminating the
whole process at once.  `ts1`/`ts2` are the isoformat timestamps at the two
writes.  Returns the final file-system state and the process exit code. -/
def runMain (f1 f2 : Option (List (List Nat))) (ts1 ts2 : List Char) (fs : FS) : FS × Nat :=
  match f1 with
  | none => (fs, 1)
  | some feed1 =>
    let r1 := fetch_and_filter TARGET_ASNS_PRIMARY feed1
    let fs1 :=
      if r1 = [] then fs
      else { fs with primary := some (write_output r1 TARGET_ASNS_PRIMARY ts1) }
    match f2 with
    | none => (fs1, 1)
    | some feed2 =>
      let r2 := fetch_and_filter TARGET_ASNS_SECONDARY feed2
      let fs2 :=
        if r2 = [] then fs1
        else { fs1 with secondary := some (write_output r2 TARGET_ASNS_SECONDARY ts2) }
      (fs2, 0)

/-- Worker for `splitNl`; `acc` holds the current line, reversed. -/
def splitNlAux : List Char → List Char → List (List Char)
  | [], acc => if acc.isEmpty then [] else [acc.reverse]
  | c :: rest, acc =>
    if c = '\n' then acc.reverse :: splitNlAux rest [] else splitNlAux rest (c :: acc)

/-- Split a text into its newline-terminated lines (a trailing newline
yields no empty final line); used to state theorems about artifacts. -/
def splitNl (l : List Char) : List (List Char) := splitNlAux l []

/-- The CIDR that one raw line contributes for target set `t`, if any (the
retention condition of line 62). -/
def matchOf (t : List Int) (raw : List Nat) : Option (List Char) :=
  match parseLine raw with
  | .record c n => if n ∈ t ∧ is_ipv4_cidr c then some c else none
  | _ => none

/-- The CIDR-set projection of one loop iteration. -/
def cidrsStep (t : List Int) (s : List (List Char)) (raw : List Nat) : List (List Char) :=
  match matchOf t raw with
  | some c => addCidr s c
  | none => s

theorem stepLine_cidrs (t : List Int) (st : LoopState) (raw : List Nat) :
    (stepLine t st raw).cidrs = cidrsStep t st.cidrs raw := by
  cases h : parseLine raw <;> simp only [stepLine, cidrsStep, matchOf, h] <;> try rfl
  case badLine l => split <;> rfl
  case record c n =>
    by_cases hc : n ∈ t ∧ is_ipv4_cidr c = true
    · simp [hc]
    · simp [hc]

theorem runFeed_cidrs (t : List Int) (feed : List (List Nat)) :
    ∀ st : LoopState,
      (List.foldl (stepLine t) st feed).cidrs = List.foldl (cidrsStep t) st.cidrs feed := by
  induction feed with
  | nil => intro st; rfl
  | cons raw rest ih => intro st; simp only [List.foldl_cons, ih, stepLine_cidrs]

theorem mem_addCidr {s : List (List Char)} {c x : List Char} :
    x ∈ addCidr s c ↔ x ∈ s ∨ x = c := by
  unfold addCidr
  by_cases h : c ∈ s
  · rw [if_pos h]
    constructor
    · exact Or.inl
    · rintro (hx | rfl)
      · exact hx
      · exact h
  · rw [if_neg h]
    simp

theorem nodup_addCidr {s : List (List Char)} {c : List Char} (h : s.Nodup) :
    (addCidr s c).Nodup := by
  unfold addCidr
  by_cases hc : c ∈ s
  · rw [if_pos hc]; exact h
  · rw [if_neg hc]
    simp [List.nodup_append, h, hc]

theorem mem_foldl_cidrsStep (t : List Int) (p : List Char) :
    ∀ (feed : List (List Nat)) (s : List (List Char)),
      p ∈ List.foldl (cidrsStep t) s feed ↔ p ∈ s ∨ ∃ raw ∈ feed, matchOf t raw = some p := by
  intro feed
  induction feed with
  | nil => intro s; simp
  | cons raw rest ih =>
    intro s
    rw [List.foldl_cons, ih]
    constructor
    · rintro (hp | hr)
      · unfold cidrsStep at hp
        cases h : matchOf t raw with
        | none => rw [h] at hp; exact Or.inl hp
        | some c =>
          rw [h] at hp
          rcases mem_addCidr.mp hp with hps | rfl
          · exact Or.inl hps
          · exact Or.inr ⟨raw, List.mem_cons_self _ _, h⟩
      · rcases hr with ⟨r, hrm, hmo⟩
        exact Or.inr ⟨r, List.mem_cons_of_mem _ hrm, hmo⟩
    · rintro (hp | ⟨r, hrm, hmo⟩)
      · left
        unfold cidrsStep
        cases h : matchOf t raw with
        | none => exact hp
        | some c => exact mem_addCidr.mpr (Or.inl hp)
      · rcases List.mem_cons.mp hrm with rfl | hrm2
        · left
          unfold cidrsStep
          rw [hmo]
          exact mem_addCidr.mpr (Or.inr rfl)
        · exact Or.inr ⟨r, hrm2, hmo⟩

theorem nodup_foldl_cidrsStep (t : List Int) :
    ∀ (feed : List (List Nat)) (s : List (List Char)), s.Nodup →
      (List.foldl (cidrsStep t) s feed).Nodup := by
  intro feed
  induction feed with
  | nil => intro s h; exact h
  | cons raw rest ih =>
    intro s h
    rw [List.foldl_cons]
    apply ih
    unfold cidrsStep
    cases hm : matchOf t raw with
    | none => exact h
    | some c => exact nodup_addCidr h

theorem mem_fetch_iff_matchOf {t : List Int} {feed : List (List Nat)} {p : List Char} :
    p ∈ fetch_and_filter t feed ↔ ∃ raw ∈ feed, matchOf t raw = some p := by
  unfold fetch_and_filter runFeed
  rw [(List.perm_insertionSort _ _).mem_iff, runFeed_cidrs, mem_foldl_cidrsStep]
  simp [initState]

theorem nodup_fetch (t : List Int) (feed : List (List Nat)) :
    (fetch_and_filter t feed).Nodup := by
  unfold fetch_and_filter runFeed
  rw [(List.perm_insertionSort _ _).nodup_iff, runFeed_cidrs]
  exact nodup_foldl_cidrsStep t feed initState.cidrs (by simp [initState])

theorem sorted_le_fetch (t : List Int) (feed : List (List Nat)) :
    (fetch_and_filter t feed).Sorted (· ≤ ·) :=
  List.sorted_insertionSort _ _

theorem sorted_lt_of_le_nodup {α : Type _} [LinearOrder α] :
    ∀ {l : List α}, l.Sorted (· ≤ ·) → l.Nodup → l.Sorted (· < ·) := by
  intro l
  induction l with
  | nil => intro _ _; exact List.sorted_nil
  | cons a l ih =>
    intro hs hn
    rw [List.sorted_cons] at hs ⊢
    rw [List.nodup_cons] at hn
    refine ⟨fun b hb => lt_of_le_of_ne (hs.1 b hb) ?_, ih hs.2 hn.2⟩
    intro he
    exact hn.1 (he ▸ hb)

theorem classifyLine_eq_record_iff {l c : List Char} {n : Int} :
    classifyLine l = LineOut.record c n ↔
      l ≠ [] ∧ l.head? ≠ some '#' ∧
        ∃ a rest, pySplit l = c :: a :: rest ∧ pyToInt a = some n := by
  unfold classifyLine
  by_cases h1 : l = []
  · simp [h1]
  · rw [if_neg h1]
    by_cases h2 : l.head? = some '#'
    · simp [h2, h1]
    · rw [if_neg h2]
      simp only [h1, h2, ne_eq, not_false_eq_true, true_and]
      cases hp : pySplit l with
      | nil => simp [hp]
      | cons x tl =>
        cases tl with
        | nil => simp [hp]
        | cons a tl2 =>
          cases hi : pyToInt a with
          | none => simp [hp, hi]
          | some m =>
            simp only [hp, hi, LineOut.record.injEq]
            constructor
            · rintro ⟨rfl, rfl⟩
              exact ⟨a, tl2, rfl, hi⟩
            · rintro ⟨a1, rest, heq, hti⟩
              injection heq with he1 heq2
              injection heq2 with he2 he3
              subst he1
              subst he2
              rw [hi] at hti
              injection hti with hmn
              exact ⟨rfl, hmn⟩

theorem parseLine_eq_record_iff {raw : List Nat} {c : List Char} {n : Int} :
    parseLine raw = LineOut.record c n ↔
      ∃ d, utf8Decode raw = some d ∧ classifyLine (pyStrip d) = LineOut.record c n := by
  unfold parseLine
  by_cases he : raw = []
  · subst he
    simp only [reduceIte]
    constructor
    · intro h; cases h
    · rintro ⟨d, hd, hcl⟩
      have hdd : d = [] := by
        have h0 : utf8Decode [] = some ([] : List Char) := rfl
        rw [h0] at hd
        injection hd with h
        exact h.symm
      subst hdd
      have h1 : classifyLine (pyStrip []) = LineOut.silent := rfl
      rw [h1] at hcl
      cases hcl
  · rw [if_neg he]
    cases hd : utf8Decode raw with
    | none => simp [hd]
    | some d => simp [hd]

theorem matchOf_eq_some_iff {t : List Int} {raw : List Nat} {p : List Char} :
    matchOf t raw = some p ↔
      ∃ n, parseLine raw = LineOut.record p n ∧ n ∈ t ∧ is_ipv4_cidr p = true := by
  cases h : parseLine raw with
  | emptyRaw => simp [matchOf, h]
  | badDecode => simp [matchOf, h]
  | silent => simp [matchOf, h]
  | badLine l => simp [matchOf, h]
  | record c n =>
    have hm : matchOf t raw = if n ∈ t ∧ is_ipv4_cidr c = true then some c else none := by
      simp [matchOf, h]
    rw [hm]
    by_cases hc : n ∈ t ∧ is_ipv4_cidr c = true
    · rw [if_pos hc]
      constructor
      · intro hs
        injection hs with hs
        subst hs
        exact ⟨n, rfl, hc.1, hc.2⟩
      · rintro ⟨m, hrec, hmt, hip⟩
        injection hrec with h1 h2
        subst h1
        rfl
    · rw [if_neg hc]
      constructor
      · intro hs; cases hs
      · rintro ⟨m, hrec, hmt, hip⟩
        injection hrec with h1 h2
        subst h1
        subst h2
        exact absurd ⟨hmt, hip⟩ hc

theorem count_le_one_of_nodup {l : List (List Char)} (h : l.Nodup) (p : List Char) :
    l.count p ≤ 1 := by
  induction l with
  | nil => simp
  | cons a l ih =>
    rw [List.nodup_cons] at h
    by_cases hpa : p = a
    · subst hpa
      have hz : l.count p = 0 := List.count_eq_zero.mpr h.1
      simp [List.count_cons, hz]
    · have hle : l.count p ≤ 1 := ih h.2
      have hba : (a == p) = false := beq_eq_false_iff_ne.mpr (fun he => hpa he.symm)
      simp only [List.count_cons, hba, if_false, Nat.add_zero]
      exact hle

/-- C1: a CIDR string `p` appears in the sorted list returned by
`fetch_and_filter` iff some line of the feed decodes, is non-blank and not
a comment, has `p` as its first whitespace-separated token, has a second
token parsing as an integer belonging to the target set, and `p` contains a
period and no colon; and each such `p` appears exactly once (membership
together with count at most one) no matter how many input lines match. -/
theorem fetch_mem_iff_and_once (t : List Int) (feed : List (List Nat)) (p : List Char) :
    (p ∈ fetch_and_filter t feed ↔
      ∃ raw ∈ feed, ∃ d, utf8Decode raw = some d ∧ pyStrip d ≠ [] ∧
        (pyStrip d).head? ≠ some '#' ∧
        (∃ a rest n, pySplit (pyStrip d) = p :: a :: rest ∧ pyToInt a = some n ∧ n ∈ t) ∧
        is_ipv4_cidr p = true) ∧
    (fetch_and_filter t feed).count p ≤ 1 := by
  constructor
  · rw [mem_fetch_iff_matchOf]
    constructor
    · rintro ⟨raw, hraw, hmo⟩
      rcases matchOf_eq_some_iff.mp hmo with ⟨n, hrec, hnt, hip⟩
      rcases parseLine_eq_record_iff.mp hrec with ⟨d, hd, hcl⟩
      rcases classifyLine_eq_record_iff.mp hcl with ⟨hne, hhd, a, rest, hsp, hti⟩
      exact ⟨raw, hraw, d, hd, hne, hhd, ⟨a, rest, n, hsp, hti, hnt⟩, hip⟩
    · rintro ⟨raw, hraw, d, hd, hne, hhd, ⟨a, rest, n, hsp, hti, hnt⟩, hip⟩
      refine ⟨raw, hraw, matchOf_eq_some_iff.mpr ⟨n, ?_, hnt, hip⟩⟩
      exact parseLine_eq_record_iff.mpr
        ⟨d, hd, classifyLine_eq_record_iff.mpr ⟨hne, hhd, a, rest, hsp, hti⟩⟩
  · exact count_le_one_of_nodup (nodup_fetch t feed) p

/-- C2: the list returned by `fetch_and_filter` (and hence the prefix body
written by `write_output`) is strictly ascending in the lexicographic
order on strings (code-point order on `List Char`); in particular the
matching prefixes 10.0.0.0/8, 100.0.0.0/8, 2.0.0.0/8 are emitted in exactly
that order, not numeric IP order. -/
theorem fetch_sorted_lex :
    (∀ (t : List Int) (feed : List (List Nat)),
        (fetch_and_filter t feed).Sorted (· < ·)) ∧
      fetch_and_filter [(4134 : Int)]
          [enc ("10.0.0.0/8 4134"), enc ("100.0.0.0/8 4134"), enc ("2.0.0.0/8 4134")] =
        [("10.0.0.0/8").data, ("100.0.0.0/8").data, ("2.0.0.0/8").data] := by
  constructor
  · intro t feed
    exact sorted_lt_of_le_nodup (sorted_le_fetch t feed) (nodup_fetch t feed)
  · decide

/-- C4: a malformed line — one with fewer than two whitespace-separated
tokens, or with a second token that does not parse as an integer — is
skipped without terminating the run: removing it from the feed leaves the
result of `fetch_and_filter` unchanged, so the line contributes no token to
any output, and processing (a total function of the whole feed) continues
to end-of-stream. -/
theorem malformed_line_skipped (t : List Int) (pre suf : List (List Nat))
    (raw : List Nat) (d : List Char)
    (hdec : utf8Decode raw = some d) (hne : pyStrip d ≠ [])
    (hnc : (pyStrip d).head? ≠ some '#')
    (hmal : (∃ c, pySplit (pyStrip d) = [c]) ∨ pySplit (pyStrip d) = [] ∨
      ∃ c a rest, pySplit (pyStrip d) = c :: a :: rest ∧ pyToInt a = none) :
    fetch_and_filter t (pre ++ raw :: suf) = fetch_and_filter t (pre ++ suf) := by
  have hcl : classifyLine (pyStrip d) = LineOut.badLine (pyStrip d) := by
    unfold classifyLine
    rw [if_neg hne, if_neg hnc]
    rcases hmal with ⟨c, hc⟩ | hc | ⟨c, a, rest, hc, ha⟩
    · rw [hc]
    · rw [hc]
    · rw [hc]
      simp only [ha]
  have hraw : raw ≠ [] := by
    intro h0
    subst h0
    rw [show utf8Decode [] = some ([] : List Char) from rfl] at hdec
    injection hdec with h
    subst h
    exact hne rfl
  have hpl : parseLine raw = LineOut.badLine (pyStrip d) := by
    unfold parseLine
    rw [if_neg hraw, hdec]
    exact hcl
  have hmo : matchOf t raw = none := by
    simp [matchOf, hpl]
  have key : ∀ s : List (List Char),
      List.foldl (cidrsStep t) s (pre ++ raw :: suf) =
        List.foldl (cidrsStep t) s (pre ++ suf) := by
    intro s
    rw [List.foldl_append, List.foldl_append, List.foldl_cons]
    congr 1
    unfold cidrsStep
    rw [hmo]
  unfold fetch_and_filter runFeed
  rw [runFeed_cidrs, runFeed_cidrs, key]

/-- Witness for C4 at a concrete input: dropping the one-token line
`badline` does not change the output. -/
theorem malformed_line_skipped_witness :
    fetch_and_filter [(4134 : Int)] [enc ("1.2.3.0/24 4134"), enc ("badline")] =
      fetch_and_filter [(4134 : Int)] [enc ("1.2.3.0/24 4134")] :=
  malformed_line_skipped [(4134 : Int)] [enc ("1.2.3.0/24 4134")] []
    (enc ("badline")) (("badline").data) (by decide) (by decide) (by decide)
    (Or.inl ⟨("badline").data, by decide⟩)

theorem stepLine_warn_invariant (t : List Int) (raw : List Nat) (st : LoopState)
    (h1 : st.warns.length ≤ st.processed) (h2 : st.warns.length ≤ 99)
    (h3 : ∀ w ∈ st.warns, w.1 < 100 ∧ w.2.1 < 10) :
    (stepLine t st raw).warns.length ≤ (stepLine t st raw).processed ∧
      (stepLine t st raw).warns.length ≤ 99 ∧
      ∀ w ∈ (stepLine t st raw).warns, w.1 < 100 ∧ w.2.1 < 10 := by
  cases h : parseLine raw with
  | emptyRaw =>
    simp only [stepLine, h]
    exact ⟨h1, h2, h3⟩
  | badDecode =>
    simp only [stepLine, h]
    exact ⟨Nat.le_succ_of_le h1, h2, h3⟩
  | silent =>
    simp only [stepLine, h]
    exact ⟨Nat.le_succ_of_le h1, h2, h3⟩
  | record c n =>
    simp only [stepLine, h]
    exact ⟨Nat.le_succ_of_le h1, h2, h3⟩
  | badLine l =>
    simp only [stepLine, h]
    by_cases hg : st.processed + 1 < 100 ∧ st.cidrs.length < 10
    · rw [if_pos hg]
      refine ⟨?_, ?_, ?_⟩
      · simpa using Nat.succ_le_succ h1
      · have : st.warns.length ≤ 98 := by omega
        simpa using Nat.succ_le_succ this
      · intro w hw
        rw [List.mem_append] at hw
        rcases hw with hw1 | hw2
        · exact h3 w hw1
        · rcases List.mem_singleton.mp hw2 with rfl
          exact ⟨hg.1, hg.2⟩
    · rw [if_neg hg]
      exact ⟨Nat.le_succ_of_le h1, h2, h3⟩

theorem foldl_warn_invariant (t : List Int) :
    ∀ (feed : List (List Nat)) (st : LoopState),
      st.warns.length ≤ st.processed → st.warns.length ≤ 99 →
      (∀ w ∈ st.warns, w.1 < 100 ∧ w.2.1 < 10) →
      (List.foldl (stepLine t) st feed).warns.length ≤ 99 ∧
        ∀ w ∈ (List.foldl (stepLine t) st feed).warns, w.1 < 100 ∧ w.2.1 < 10 := by
  intro feed
  induction feed with
  | nil => intro st _ h2 h3; exact ⟨h2, h3⟩
  | cons raw rest ih =>
    intro st h1 h2 h3
    rw [List.foldl_cons]
    have hs := stepLine_warn_invariant t raw st h1 h2 h3
    exact ih (stepLine t st raw) hs.1 hs.2.1 hs.2.2

/-- C5 amended: the diagnostic warnings for malformed lines are bounded, but
the cap is not counted over malformed lines: a warning is emitted for a
malformed line only while fewer than 100 non-empty feed lines (including
the current one) have been processed and fewer than 10 unique matching
prefixes have been accumulated, so at most 99 warnings are ever emitted
(each recorded here with the processed-line count and match count at its
emission), after which the run continues silently. -/
theorem warnings_bounded (t : List Int) (feed : List (List Nat)) :
    (innerWarnings t feed).length ≤ 99 ∧
      (innerWarnings t feed).Forall (fun w => w.1 < 100 ∧ w.2.1 < 10) := by
  have h := foldl_warn_invariant t feed initState (by simp [initState])
    (by simp [initState]) (by simp [initState])
  exact ⟨h.1, List.forall_iff_forall_mem.mpr h.2⟩

set_option maxRecDepth 40000 in
/-- C5 counterexample: in a feed consisting of exactly 100 malformed lines
only 99 warnings are emitted, not one per each of the first 100 malformed
lines as the claim states (the guard `processed_lines < 100` counts all
non-empty lines, already incremented, not malformed ones). -/
theorem warnings_cap_counterexample :
    (innerWarnings TARGET_ASNS_PRIMARY (List.replicate 100 (enc ("badline")))).length = 99 ∧
      ¬ (innerWarnings TARGET_ASNS_PRIMARY
          (List.replicate 100 (enc ("badline")))).length = 100 := by
  refine ⟨by decide, by decide⟩

/-- C3: an artifact is replaced only when its target set's result is
non-empty; when `fetch_and_filter` returns the empty list for a target set,
`write_output` is not invoked for it and that set's pre-existing artifact
is left unmodified. -/
theorem empty_result_preserves_artifact (feed1 feed2 : List (List Nat))
    (ts1 ts2 : List Char) (fs : FS) :
    (fetch_and_filter TARGET_ASNS_PRIMARY feed1 = [] →
        (runMain (some feed1) (some feed2) ts1 ts2 fs).1.primary = fs.primary) ∧
      (fetch_and_filter TARGET_ASNS_SECONDARY feed2 = [] →
        (runMain (some feed1) (some feed2) ts1 ts2 fs).1.secondary = fs.secondary) := by
  constructor
  · intro h
    simp only [runMain]
    rw [if_pos h]
    split <;> rfl
  · intro h
    simp only [runMain]
    rw [if_pos h]
    split <;> rfl

/-- Witness for C3: a feed with no matches leaves both previously written
artifacts exactly as they were. -/
theorem empty_result_preserves_artifact_witness :
    (runMain (some [enc ("badline")]) (some [enc ("badline")]) [] []
        ⟨some (("x").data), some (("y").data)⟩).1.primary = some (("x").data) ∧
      (runMain (some [enc ("badline")]) (some [enc ("badline")]) [] []
          ⟨some (("x").data), some (("y").data)⟩).1.secondary = some (("y").data) := by
  have h := empty_result_preserves_artifact [enc ("badline")] [enc ("badline")] [] []
    ⟨some (("x").data), some (("y").data)⟩
  exact ⟨h.1 (by decide), h.2 (by decide)⟩

/-- C6 amended: a run in which every target set yields zero matching
prefixes completes with exit status 0 (only a console warning is printed
and the artifacts are left untouched); the empty outcome is not surfaced
through a non-zero exit status. -/
theorem empty_run_exits_zero (feed1 feed2 : List (List Nat)) (ts1 ts2 : List Char) (fs : FS)
    (h1 : fetch_and_filter TARGET_ASNS_PRIMARY feed1 = [])
    (h2 : fetch_and_filter TARGET_ASNS_SECONDARY feed2 = []) :
    runMain (some feed1) (some feed2) ts1 ts2 fs = (fs, 0) := by
  simp [runMain, h1, h2]

/-- Witness for C6 amended at a concrete all-empty run. -/
theorem empty_run_exits_zero_witness :
    runMain (some [enc ("badline")]) (some [enc ("badline")]) [] [] ⟨none, none⟩ =
      (⟨none, none⟩, 0) :=
  empty_run_exits_zero _ _ _ _ _ (by decide) (by decide)

/-- C6 counterexample: a run in which both target sets yield zero matching
prefixes terminates with exit status 0, not a non-zero status as claimed. -/
theorem empty_run_counterexample :
    fetch_and_filter TARGET_ASNS_PRIMARY [enc ("badline")] = [] ∧
      fetch_and_filter TARGET_ASNS_SECONDARY [enc ("badline")] = [] ∧
      (runMain (some [enc ("badline")]) (some [enc ("badline")]) [] [] ⟨none, none⟩).2 = 0 := by
  refine ⟨by decide, by decide, by decide⟩

/-- C7 amended: a transport failure makes the whole process exit with
status 1 at once: if the primary fetch fails, nothing is processed or
written at all (so the other target set's pipeline is not run, contrary to
the claim); if the secondary fetch fails, the primary pipeline has already
completed but the secondary artifact is untouched. -/
theorem fetch_failure_aborts_run :
    (∀ (f2 : Option (List (List Nat))) (ts1 ts2 : List Char) (fs : FS),
        runMain none f2 ts1 ts2 fs = (fs, 1)) ∧
      ∀ (feed1 : List (List Nat)) (ts1 ts2 : List Char) (fs : FS),
        (runMain (some feed1) none ts1 ts2 fs).2 = 1 ∧
          (runMain (some feed1) none ts1 ts2 fs).1.secondary = fs.secondary := by
  constructor
  · intro f2 ts1 ts2 fs
    rfl
  · intro feed1 ts1 ts2 fs
    constructor
    · rfl
    · simp only [runMain]
      split <;> rfl

/-- C7 counterexample: the primary fetch fails while the secondary feed
holds a prefix matching the secondary target set; the run exits 1 and the
secondary artifact is never written, refuting the claim that the other
target set's pipeline is unaffected. -/
theorem fetch_failure_counterexample :
    fetch_and_filter TARGET_ASNS_SECONDARY [enc ("1.2.3.0/24 4134")] ≠ [] ∧
      runMain none (some [enc ("1.2.3.0/24 4134")]) [] [] ⟨none, none⟩ =
        (⟨none, none⟩, 1) := by
  refine ⟨by decide, rfl⟩

theorem splitNlAux_append (x : List Char) (r : List Char) :
    ∀ acc : List Char, '\n' ∉ x →
      splitNlAux (x ++ '\n' :: r) acc = (acc.reverse ++ x) :: splitNlAux r [] := by
  induction x with
  | nil =>
    intro acc _
    simp [splitNlAux]
  | cons c cs ih =>
    intro acc hx
    have hc : ¬ c = '\n' := fun h => hx (h ▸ List.mem_cons_self c cs)
    simp only [List.cons_append, splitNlAux, List.append_eq]
    rw [if_neg hc, ih (c :: acc) (fun h => hx (List.mem_cons_of_mem c h))]
    simp

theorem splitNl_append (x r : List Char) (hx : '\n' ∉ x) :
    splitNl (x ++ '\n' :: r) = x :: splitNl r := by
  unfold splitNl
  rw [splitNlAux_append x r [] hx]
  simp

theorem splitNl_joinLines : ∀ cs : List (List Char),
    (∀ c ∈ cs, '\n' ∉ c) → splitNl (joinLines cs) = cs := by
  intro cs
  induction cs with
  | nil => intro _; rfl
  | cons c rest ih =>
    intro h
    show splitNl (c ++ '\n' :: joinLines rest) = c :: rest
    rw [splitNl_append c (joinLines rest) (h c (List.mem_cons_self c rest)),
      ih (fun x hx => h x (List.mem_cons_of_mem c hx))]

theorem replTs_cons_ne {c : Char} {l : List Char} (hc : c ≠ '+') :
    replTs (c :: l) = c :: replTs l := by
  rw [replTs.eq_def]
  split
  · next rest heq =>
    injection heq with h1 _
    exact absurd h1 hc
  · next c2 rest heq =>
    injection heq with h1 h2
    rw [h1, h2]
  · next heq => cases heq

theorem replTs_core_append (core : List Char) (hc : '+' ∉ core) :
    replTs (core ++ ("+00:00").data) = core ++ ('Z' :: []) := by
  induction core with
  | nil => rfl
  | cons c cs ih =>
    have hcp : c ≠ '+' := fun h => hc (h ▸ List.mem_cons_self c cs)
    have hcs : '+' ∉ cs := fun h => hc (List.mem_cons_of_mem c h)
    rw [List.cons_append, replTs_cons_ne hcp, ih hcs, List.cons_append]

theorem natStrGo_mem (P : Char → Prop) (hdig : ∀ k : Nat, k < 10 → P (Char.ofNat (48 + k))) :
    ∀ (fuel n : Nat) (acc : List Char), (∀ c ∈ acc, P c) →
      ∀ c ∈ natStrGo fuel n acc, P c := by
  intro fuel
  induction fuel with
  | zero => intro n acc hacc c hc; exact hacc c hc
  | succ fuel ih =>
    intro n acc hacc c hc
    simp only [natStrGo] at hc
    by_cases hn : n < 10
    · rw [if_pos hn] at hc
      rcases List.mem_cons.mp hc with rfl | hcm
      · exact hdig _ (Nat.mod_lt _ (by omega))
      · exact hacc c hcm
    · rw [if_neg hn] at hc
      refine ih (n / 10) _ ?_ c hc
      intro d hd
      rcases List.mem_cons.mp hd with rfl | hdm
      · exact hdig _ (Nat.mod_lt _ (by omega))
      · exact hacc d hdm

theorem natStr_ne_newline (n : Nat) : ∀ c ∈ natStr n, c ≠ '\n' := by
  refine natStrGo_mem (fun c => c ≠ '\n') ?_ (n + 1) n [] (by intro c hc; cases hc)
  decide

theorem intStr_ne_newline (i : Int) : ∀ c ∈ intStr i, c ≠ '\n' := by
  intro c hc
  unfold intStr at hc
  split at hc
  · rcases List.mem_cons.mp hc with rfl | hcm
    · decide
    · exact natStr_ne_newline _ c hcm
  · exact natStr_ne_newline _ c hc

theorem commaJoin_mem (P : Char → Prop) (h44 : P ',') (h32 : P ' ') :
    ∀ xs : List (List Char), (∀ x ∈ xs, ∀ c ∈ x, P c) → ∀ c ∈ commaJoin xs, P c := by
  intro xs
  induction xs with
  | nil => intro _ c hc; cases hc
  | cons x rest ih =>
    intro h c hc
    cases rest with
    | nil => exact h x (List.mem_cons_self x []) c hc
    | cons y ys =>
      simp only [commaJoin] at hc
      rcases List.mem_append.mp hc with hx | hz
      · exact h x (List.mem_cons_self x _) c hx
      · rcases List.mem_cons.mp hz with rfl | hz2
        · exact h44
        · rcases List.mem_cons.mp hz2 with rfl | hz3
          · exact h32
          · exact ih (fun u hu d hd => h u (List.mem_cons_of_mem x hu) d hd) c hz3

theorem getLast?_append_cons_ne {A R : List Char} (h : R ≠ []) :
    (A ++ '\n' :: R).getLast? = R.getLast? := by
  rw [List.getLast?_append_of_ne_nil A (by simp)]
  rw [show ('\n' :: R) = ['\n'] ++ R from rfl, List.getLast?_append_of_ne_nil _ h]

theorem joinLines_getLast : ∀ cs : List (List Char), cs ≠ [] →
    (joinLines cs).getLast? = some '\n' := by
  intro cs
  induction cs with
  | nil => intro h; exact absurd rfl h
  | cons c rest ih =>
    intro _
    cases rest with
    | nil =>
      show (c ++ '\n' :: []).getLast? = some '\n'
      rw [List.getLast?_append_of_ne_nil c (by simp)]
      rfl
    | cons d ds =>
      show (c ++ '\n' :: joinLines (d :: ds)).getLast? = some '\n'
      have hne : joinLines (d :: ds) ≠ [] := by
        show d ++ '\n' :: joinLines ds ≠ []
        simp
      rw [getLast?_append_cons_ne hne]
      exact ih (by simp)

theorem sortedAsns_sorted (t : List Int) : (sortedAsns t).Sorted (· < ·) := by
  have hle : (sortedAsns t).Sorted (· ≤ ·) := List.sorted_insertionSort _ _
  have hnd : (sortedAsns t).Nodup :=
    (List.perm_insertionSort _ _).nodup_iff.mpr (List.nodup_dedup t)
  exact sorted_lt_of_le_nodup hle hnd

theorem line1_no_newline (t : List Int) :
    '\n' ∉ ("# IPv4 CIDRs for ASNs ").data ++ commaJoin ((sortedAsns t).map intStr) := by
  intro hmem
  rcases List.mem_append.mp hmem with h | h
  · revert h
    decide
  · exact commaJoin_mem (fun c => c ≠ '\n') (by decide) (by decide) _
      (fun x hx d hd => by
        rcases List.mem_map.mp hx with ⟨i, _, rfl⟩
        exact intStr_ne_newline i d hd) '\n' h rfl

theorem splitNl_write_output (cidrs : List (List Char)) (t : List Int) (core : List Char)
    (hnl : ∀ c ∈ cidrs, '\n' ∉ c) (hc1 : '+' ∉ core) (hc2 : '\n' ∉ core) :
    splitNl (write_output cidrs t (core ++ ("+00:00").data)) =
      (("# IPv4 CIDRs for ASNs ").data ++ commaJoin ((sortedAsns t).map intStr)) ::
      (("# Data sourced from bgp.tools (").data ++ BGP_TABLE_URL ++ (")").data) ::
      (("# Last updated: ").data ++ (core ++ ('Z' :: []))) ::
      ("# WARNING: ASN Geo-location is not always precise. This list is based on ASN registration only.").data ::
      ("#-----------------------------------------------------------").data ::
      cidrs := by
  have h2 : '\n' ∉ ("# Data sourced from bgp.tools (").data ++ BGP_TABLE_URL ++ (")").data := by
    decide
  have h3 : '\n' ∉ ("# Last updated: ").data ++ (core ++ ('Z' :: [])) := by
    intro hmem
    rcases List.mem_append.mp hmem with h | h
    · revert h
      decide
    · rcases List.mem_append.mp h with hx | hx
      · exact hc2 hx
      · exact absurd (List.mem_singleton.mp hx) (by decide)
  have h4 : '\n' ∉ ("# WARNING: ASN Geo-location is not always precise. This list is based on ASN registration only.").data := by
    decide
  have h5 : '\n' ∉ ("#-----------------------------------------------------------").data := by
    decide
  unfold write_output
  rw [replTs_core_append core hc1]
  rw [splitNl_append _ _ (line1_no_newline t), splitNl_append _ _ h2,
    splitNl_append _ _ h3, splitNl_append _ _ h4, splitNl_append _ _ h5,
    splitNl_joinLines cidrs hnl]

theorem getLast_line (A R : List Char) (h : R.getLast? = some '\n') :
    (A ++ '\n' :: R).getLast? = some '\n' := by
  have hR : R ≠ [] := by
    intro h0
    rw [h0] at h
    cases h
  rw [getLast?_append_cons_ne hR]
  exact h

/-- C8: for every non-empty sorted prefix list, `write_output` produces an
artifact whose newline-split lines are exactly five header comment lines —
the target set's ASNs in ascending numeric order comma-joined, the source
URL, the generation timestamp (the isoformat value `core ++ "+00:00"` of an
aware UTC datetime, its offset replaced by a trailing `Z`), the fixed
disclaimer, and the separator — followed by one prefix per line in the
given order; the artifact ends with a newline, so every line is
newline-terminated. -/
theorem write_output_layout (cidrs : List (List Char)) (t : List Int) (core : List Char)
    (hcn : cidrs ≠ []) (hnl : ∀ c ∈ cidrs, '\n' ∉ c)
    (hc1 : '+' ∉ core) (hc2 : '\n' ∉ core) :
    (splitNl (write_output cidrs t (core ++ ("+00:00").data)) =
      (("# IPv4 CIDRs for ASNs ").data ++ commaJoin ((sortedAsns t).map intStr)) ::
      (("# Data sourced from bgp.tools (").data ++ BGP_TABLE_URL ++ (")").data) ::
      (("# Last updated: ").data ++ (core ++ ('Z' :: []))) ::
      ("# WARNING: ASN Geo-location is not always precise. This list is based on ASN registration only.").data ::
      ("#-----------------------------------------------------------").data ::
      cidrs) ∧
    List.Sorted (· < ·) (sortedAsns t) ∧
    (write_output cidrs t (core ++ ("+00:00").data)).getLast? = some '\n' := by
  refine ⟨splitNl_write_output cidrs t core hnl hc1 hc2, sortedAsns_sorted t, ?_⟩
  have hj : (joinLines cidrs).getLast? = some '\n' := joinLines_getLast cidrs hcn
  unfold write_output
  rw [replTs_core_append core hc1]
  exact getLast_line _ _ (getLast_line _ _ (getLast_line _ _ (getLast_line _ _
    (getLast_line _ _ hj))))

/-- Witness for C8 at a concrete prefix list, target set and timestamp. -/
theorem write_output_layout_witness :
    splitNl (write_output [("1.2.3.0/24").data] TARGET_ASNS_PRIMARY
        (("2026-10-12T09:00:00").data ++ ("+00:00").data)) =
      (("# IPv4 CIDRs for ASNs ").data ++
        commaJoin ((sortedAsns TARGET_ASNS_PRIMARY).map intStr)) ::
      (("# Data sourced from bgp.tools (").data ++ BGP_TABLE_URL ++ (")").data) ::
      (("# Last updated: ").data ++ (("2026-10-12T09:00:00").data ++ ('Z' :: []))) ::
      ("# WARNING: ASN Geo-location is not always precise. This list is based on ASN registration only.").data ::
      ("#-----------------------------------------------------------").data ::
      [("1.2.3.0/24").data] :=
  (write_output_layout [("1.2.3.0/24").data] TARGET_ASNS_PRIMARY
    (("2026-10-12T09:00:00").data) (by decide) (by decide) (by decide) (by decide)).1

theorem pySplitAux_mem_no_space :
    ∀ (l acc : List Char), (∀ c ∈ acc, ¬ isPySpace c = true) →
      ∀ tok ∈ pySplitAux l acc, ∀ c ∈ tok, ¬ isPySpace c = true := by
  intro l
  induction l with
  | nil =>
    intro acc hacc tok htok c hc
    simp only [pySplitAux] at htok
    split at htok
    · cases htok
    · rcases List.mem_singleton.mp htok with rfl
      exact hacc c (List.mem_reverse.mp hc)
  | cons d rest ih =>
    intro acc hacc tok htok c hc
    simp only [pySplitAux] at htok
    by_cases hd : isPySpace d = true
    · rw [if_pos hd] at htok
      split at htok
      · exact ih [] (fun x hx => absurd hx (List.not_mem_nil x)) tok htok c hc
      · rcases List.mem_cons.mp htok with rfl | htok2
        · exact hacc c (List.mem_reverse.mp hc)
        · exact ih [] (fun x hx => absurd hx (List.not_mem_nil x)) tok htok2 c hc
    · rw [if_neg hd] at htok
      refine ih (d :: acc) ?_ tok htok c hc
      intro x hx
      rcases List.mem_cons.mp hx with rfl | hx2
      · exact hd
      · exact hacc x hx2

theorem pySplit_token_no_space {l tok : List Char} (h : tok ∈ pySplit l) :
    ∀ c ∈ tok, ¬ isPySpace c = true :=
  pySplitAux_mem_no_space l [] (fun x hx => absurd hx (List.not_mem_nil x)) tok h

theorem fetch_no_newline (t : List Int) (feed : List (List Nat)) :
    ∀ p ∈ fetch_and_filter t feed, '\n' ∉ p := by
  intro p hp hnl
  rcases mem_fetch_iff_matchOf.mp hp with ⟨raw, _, hmo⟩
  rcases matchOf_eq_some_iff.mp hmo with ⟨n, hrec, _, _⟩
  rcases parseLine_eq_record_iff.mp hrec with ⟨d, _, hcl⟩
  rcases classifyLine_eq_record_iff.mp hcl with ⟨_, _, a, rest, hsp, _⟩
  have hmem : p ∈ pySplit (pyStrip d) := by
    rw [hsp]
    exact List.mem_cons_self _ _
  exact absurd (by decide : isPySpace '\n' = true) (pySplit_token_no_space hmem '\n' hnl)

/-- C9: for any two runs over the same feed and the same target set, the
produced artifacts are byte-identical except for the timestamp header line
(line index 2 of the newline-split artifact): erasing that one line yields
equal artifacts, because the filter, ordering and serialization are
deterministic functions of the feed and configuration and only the
timestamp (`coreN ++ "+00:00"`, an aware-UTC isoformat value) differs. -/
theorem rerun_identical_except_timestamp (feed : List (List Nat)) (t : List Int)
    (core1 core2 : List Char)
    (h11 : '+' ∉ core1) (h12 : '\n' ∉ core1) (h21 : '+' ∉ core2) (h22 : '\n' ∉ core2) :
    (splitNl (write_output (fetch_and_filter t feed) t
        (core1 ++ ("+00:00").data))).eraseIdx 2 =
      (splitNl (write_output (fetch_and_filter t feed) t
          (core2 ++ ("+00:00").data))).eraseIdx 2 := by
  rw [splitNl_write_output _ t core1 (fetch_no_newline t feed) h11 h12,
    splitNl_write_output _ t core2 (fetch_no_newline t feed) h21 h22]
  rfl

/-- Witness for C9 at a concrete feed and two concrete timestamps. -/
theorem rerun_identical_except_timestamp_witness :
    (splitNl (write_output (fetch_and_filter [(4134 : Int)] [enc ("1.2.3.0/24 4134")])
        [(4134 : Int)] (("2026-10-12T09:00:00").data ++ ("+00:00").data))).eraseIdx 2 =
      (splitNl (write_output (fetch_and_filter [(4134 : Int)] [enc ("1.2.3.0/24 4134")])
          [(4134 : Int)] (("2026-10-13T11:30:00").data ++ ("+00:00").data))).eraseIdx 2 :=
  rerun_identical_except_timestamp [enc ("1.2.3.0/24 4134")] [(4134 : Int)]
    (("2026-10-12T09:00:00").data) (("2026-10-13T11:30:00").data)
    (by decide) (by decide) (by decide) (by decide)

/-- Does processing this raw line raise past the inner handler (a UTF-8
decoding failure of a non-empty byte line, line 44)? -/
def decodeFails (raw : List Nat) : Bool := !raw.isEmpty && (utf8Decode raw).isNone

theorem classifyLine_ne_badDecode (l : List Char) :
    classifyLine l ≠ LineOut.badDecode := by
  unfold classifyLine
  split
  · exact fun h => by cases h
  · split
    · exact fun h => by cases h
    · split
      · split
        · exact fun h => by cases h
        · exact fun h => by cases h
      · exact fun h => by cases h

theorem parseLine_badDecode_iff {raw : List Nat} :
    parseLine raw = LineOut.badDecode ↔ decodeFails raw = true := by
  unfold parseLine decodeFails
  by_cases he : raw = []
  · subst he
    simp
  · rw [if_neg he]
    cases hd : utf8Decode raw with
    | none =>
      simp only [hd, Option.isNone_none, Bool.and_true]
      constructor
      · intro _
        simp [List.isEmpty_iff, he]
      · intro _
        trivial
    | some d =>
      simp only [hd, Option.isNone_some, Bool.and_false]
      constructor
      · intro h
        exact absurd h (classifyLine_ne_badDecode (pyStrip d))
      · intro h
        cases h

theorem stepLine_outer (t : List Int) (st : LoopState) (raw : List Nat) :
    (stepLine t st raw).outerWarns =
      st.outerWarns ++ (if decodeFails raw = true then [raw] else []) := by
  cases hd : decodeFails raw with
  | true =>
    have hp : parseLine raw = LineOut.badDecode := parseLine_badDecode_iff.mpr hd
    simp [stepLine, hp]
  | false =>
    have hp : parseLine raw ≠ LineOut.badDecode := by
      intro hp
      rw [parseLine_badDecode_iff, hd] at hp
      cases hp
    rw [if_neg (by simp)]
    rw [List.append_nil]
    cases h : parseLine raw with
    | badDecode => exact absurd h hp
    | emptyRaw => simp [stepLine, h]
    | silent => simp [stepLine, h]
    | record c n => simp [stepLine, h]
    | badLine l =>
      simp only [stepLine, h]
      split <;> rfl

theorem foldl_outer (t : List Int) :
    ∀ (feed : List (List Nat)) (st : LoopState),
      (List.foldl (stepLine t) st feed).outerWarns =
        st.outerWarns ++ feed.filter (fun raw => decodeFails raw) := by
  intro feed
  induction feed with
  | nil => intro st; simp
  | cons raw rest ih =>
    intro st
    rw [List.foldl_cons, ih, stepLine_outer, List.filter_cons]
    cases hd : decodeFails raw with
    | true => simp [hd]
    | false => simp [hd]

theorem matchOf_none_erase (t : List Int) (pre suf : List (List Nat)) (raw : List Nat)
    (hmo : matchOf t raw = none) :
    fetch_and_filter t (pre ++ raw :: suf) = fetch_and_filter t (pre ++ suf) := by
  have key : ∀ s : List (List Char),
      List.foldl (cidrsStep t) s (pre ++ raw :: suf) =
        List.foldl (cidrsStep t) s (pre ++ suf) := by
    intro s
    rw [List.foldl_append, List.foldl_append, List.foldl_cons]
    congr 1
    unfold cidrsStep
    rw [hmo]
  unfold fetch_and_filter runFeed
  rw [runFeed_cidrs, runFeed_cidrs, key]

/-- C10: the per-line exception the streaming loop can raise past the inner
ASN handler — a UTF-8 decoding failure of the raw line bytes — is caught
per line by the outer handler: the run emits exactly one outer warning per
non-empty undecodable line of the feed (so there is no bound on how many
such warnings a run can emit: a feed of n bad-byte lines emits n of them),
the line contributes nothing to any result, and iteration continues to the
next line rather than aborting the run. -/
theorem decode_error_caught_per_line (t : List Int) :
    (∀ feed : List (List Nat),
        outerWarnings t feed = feed.filter (fun raw => decodeFails raw)) ∧
      (∀ (pre suf : List (List Nat)) (raw : List Nat), raw ≠ [] →
        utf8Decode raw = none →
        fetch_and_filter t (pre ++ raw :: suf) = fetch_and_filter t (pre ++ suf)) ∧
      ∀ n : Nat,
        (outerWarnings t (List.replicate n ((255 : Nat) :: []))).length = n := by
  have houter : ∀ feed : List (List Nat),
      outerWarnings t feed = feed.filter (fun raw => decodeFails raw) := by
    intro feed
    unfold outerWarnings runFeed
    rw [foldl_outer]
    simp [initState]
  refine ⟨houter, ?_, ?_⟩
  · intro pre suf raw hne hdec
    have hp : parseLine raw = LineOut.badDecode := by
      rw [parseLine_badDecode_iff]
      simp [decodeFails, hdec, List.isEmpty_iff, hne]
    have hmo : matchOf t raw = none := by
      simp [matchOf, hp]
    exact matchOf_none_erase t pre suf raw hmo
  · intro n
    rw [houter]
    induction n with
    | zero => rfl
    | succ n ih =>
      rw [List.replicate_succ, List.filter_cons]
      simp only [show decodeFails ((255 : Nat) :: []) = true from by decide, if_true]
      simp [ih]

/-- Witness for C10: one undecodable line draws one warning and contributes
nothing to the result. -/
theorem decode_error_caught_per_line_witness :
    outerWarnings [(4134 : Int)] [(255 : Nat) :: [], enc ("1.2.3.0/24 4134")] =
        [(255 : Nat) :: []] ∧
      fetch_and_filter [(4134 : Int)] [enc ("1.2.3.0/24 4134"), (255 : Nat) :: []] =
        fetch_and_filter [(4134 : Int)] [enc ("1.2.3.0/24 4134")] := by
  have h := decode_error_caught_per_line [(4134 : Int)]
  constructor
  · rw [h.1]
    decide
  · exact h.2.1 [enc ("1.2.3.0/24 4134")] [] ((255 : Nat) :: []) (by decide) (by decide)
